import Mathlib

/-!
Verification of the DNA-profile matching engine in
`src/codechallenge2025/participant_solution.py`.

The embedding models:
* raw table cells as `Option String` (`none` = a pandas-missing value, i.e.
  `pd.isna` is true; `some s` = the cell text);
* Python floats as rationals `ℚ` (all arithmetic in the program is exact
  decimal comparison and a fixed `±1` difference test);
* a profile row (query dict or database row) as a `Row`: an optional
  identifier (the `PersonID` field, `none` when the field is structurally
  missing, which makes the Python dict/`Series` lookup raise `KeyError`)
  plus a total field map;
* exceptions as `Except String`.
-/

/-- Model of Python `str.strip()`: drop leading and trailing whitespace. -/
def pyStrip (cs : List Char) : List Char :=
  ((cs.dropWhile Char.isWhitespace).reverse.dropWhile Char.isWhitespace).reverse

/-- Model of Python `str.split(",")`: split on every comma, keeping empty
pieces (`"".split(",") == [""]`). -/
def splitOnComma : List Char → List (List Char)
  | [] => [[]]
  | c :: rest =>
    if c = ',' then [] :: splitOnComma rest
    else
      match splitOnComma rest with
      | [] => [[c]]
      | g :: gs => (c :: g) :: gs

/-- Numeric value of a list of decimal digit characters, most significant first. -/
def digitsVal (l : List Char) : ℕ :=
  l.foldl (fun n c => 10 * n + (c.toNat - 48)) 0

/-- Parse an unsigned decimal literal: digits, optionally followed by a point
and further digits, at least one digit in total.  Models Python `float()` on
plain decimal notation (the only notation allele fields use). -/
def parseUnsigned (cs : List Char) : Option ℚ :=
  let intPart := cs.takeWhile Char.isDigit
  let rest := cs.dropWhile Char.isDigit
  match rest with
  | [] => if intPart.isEmpty then none else some (digitsVal intPart)
  | '.' :: frac =>
      if frac.all Char.isDigit && !(intPart.isEmpty && frac.isEmpty) then
        some ((digitsVal intPart : ℚ) + (digitsVal frac : ℚ) / (10 : ℚ) ^ frac.length)
      else none
  | _ => none

/-- Model of Python `float(token)` on an already-stripped token: an optional
leading sign followed by an unsigned decimal literal; `none` when the token
fails numeric parse (`ValueError`). -/
def parseDecimal (cs : List Char) : Option ℚ :=
  match cs with
  | '-' :: rest => (parseUnsigned rest).map (fun q => -q)
  | '+' :: rest => parseUnsigned rest
  | cs => parseUnsigned cs

/-- `_parse_alleles` (source lines 14–38): parse a locus cell into a list of
alleles, `none` for missing values.  A missing cell, a stripped-empty string
and the literal `"-"` give `none`; otherwise the cell is split on `","`,
tokens are stripped, empty or unparseable tokens are skipped, and an empty
survivor list gives `none` (`return alleles or None`). -/
def parse_alleles : Option String → Option (List ℚ)
  | none => none
  | some value =>
    let text := pyStrip value.toList
    if text = [] ∨ text = ['-'] then none
    else
      let alleles := (splitOnComma text).foldl (fun acc tok =>
        let a := pyStrip tok
        if a = [] then acc
        else
          match parseDecimal a with
          | some v => acc ++ [v]
          | none => acc) []
      if alleles = [] then none else some alleles

/-- `_evaluate_locus` (source lines 41–60): classify one locus comparison,
returning `(consistent, mutated, inconclusive, mismatch_score)`. -/
def evaluate_locus (query_alleles candidate_alleles : Option (List ℚ)) :
    ℕ × ℕ × ℕ × ℚ :=
  match query_alleles, candidate_alleles with
  | none, _ => (0, 0, 1, 0)
  | _, none => (0, 0, 1, 0)
  | some qs, some cs =>
    if qs.any (fun a => cs.any (fun b => decide (a = b))) then (1, 0, 0, 0)
    else if qs.any (fun a => cs.any (fun b => decide (|a - b| = 1))) then (0, 1, 0, 1/2)
    else (0, 0, 0, 1)

/-- A profile row: the `PersonID` field (`none` when the field is missing from
the record, in which case the Python lookup raises) and the locus cells. -/
structure Row where
  personId : Option String
  fields : String → Option String

/-- The candidate table: its locus columns (all columns except `PersonID`,
source line 97) and its rows in scan order. -/
structure Database where
  loci : List String
  rows : List Row

/-- One entry of `match_single`'s result list (source lines 119–128). -/
structure MatchResult where
  person_id : String
  clr : ℚ
  posterior : ℚ
  consistent_loci : ℕ
  mutated_loci : ℕ
  inconclusive_loci : ℕ
  deriving Repr, DecidableEq

/-- Running totals of the per-candidate loop (source lines 103–104). -/
structure Tally where
  consistent : ℕ
  mutated : ℕ
  inconclusive : ℕ
  penalty : ℚ
  deriving Repr, DecidableEq

/-- One iteration of the per-locus loop (source lines 106–113). -/
def stepTally (qa : String → Option (List ℚ)) (fields : String → Option String)
    (t : Tally) (locus : String) : Tally :=
  let e := evaluate_locus (qa locus) (parse_alleles (fields locus))
  ⟨t.consistent + e.1, t.mutated + e.2.1, t.inconclusive + e.2.2.1, t.penalty + e.2.2.2⟩

/-- The per-locus loop over the schema loci (source lines 106–113). -/
def tallyLoci (qa : String → Option (List ℚ)) (fields : String → Option String)
    (loci : List String) : Tally :=
  loci.foldl (stepTally qa fields) ⟨0, 0, 0, 0⟩

/-- The fixed epsilon added to every score (source line 116). -/
def scoreEps : ℚ := 1 / 1000000

/-- Score and result record for one candidate row (source lines 103–128):
`score = max(consistent*2 + mutated - mismatch_penalty, 0.0) + 1e-6`,
`posterior = score / (score + 1)`. -/
def scoreRow (qa : String → Option (List ℚ)) (loci : List String)
    (pid : String) (row : Row) : MatchResult :=
  let t := tallyLoci qa row.fields loci
  let score := max ((t.consistent : ℚ) * 2 + (t.mutated : ℚ) - t.penalty) 0 + scoreEps
  { person_id := pid
    clr := score
    posterior := score / (score + 1)
    consistent_loci := t.consistent
    mutated_loci := t.mutated
    inconclusive_loci := t.inconclusive }

/-- The candidate scan (source lines 99–128): read each row's `PersonID`
(raising `KeyError` when the field is missing), skip self comparisons, and
score every other row, in scan order. -/
def scanRows (qa : String → Option (List ℚ)) (loci : List String)
    (query_id : String) : List Row → Except String (List MatchResult)
  | [] => .ok []
  | row :: rest =>
    match row.personId with
    | none => .error "SchemaError: candidate record is missing the PersonID field"
    | some pid =>
      if pid = query_id then scanRows qa loci query_id rest
      else
        match scanRows qa loci query_id rest with
        | .error e => .error e
        | .ok l => .ok (scoreRow qa loci pid row :: l)

/-- The sort key of source line 130: `candidates.sort(key=clr, reverse=True)`
is a stable sort putting larger `clr` first. -/
def leClr (a b : MatchResult) : Bool := decide (b.clr ≤ a.clr)

/-- `match_single` (source lines 63–131): read the query's `PersonID`
(raising `KeyError` when absent), pre-parse the query alleles, score every
non-self candidate, stably sort by `clr` descending and keep the first 10. -/
def match_single (query_profile : Row) (database : Database) :
    Except String (List MatchResult) :=
  match query_profile.personId with
  | none => .error "SchemaError: query profile is missing the PersonID field"
  | some query_id =>
    let query_alleles_by_locus := fun locus => parse_alleles (query_profile.fields locus)
    match scanRows query_alleles_by_locus database.loci query_id database.rows with
    | .error e => .error e
    | .ok candidates => .ok ((candidates.mergeSort leClr).take 10)

/-- Number of schema loci classified as a hard mismatch for one comparison
(tracked implicitly by the code through the penalty; defined here to state the
count invariant). -/
def mismatchCount (qa : String → Option (List ℚ)) (fields : String → Option String)
    (loci : List String) : ℕ :=
  loci.countP (fun locus =>
    decide (evaluate_locus (qa locus) (parse_alleles (fields locus)) = (0, 0, 0, 1)))

/-- The pre-parsed query allele map (source lines 91–95 together with the
`.get(locus)` lookup of line 107: a locus key absent from the query dict and a
present-but-missing cell both yield `None`). -/
def queryAlleles (query_profile : Row) : String → Option (List ℚ) :=
  fun locus => parse_alleles (query_profile.fields locus)

/-- Spec-side description of the Allele Parser's surviving tokens (§4.1): the
cell is split on commas, each token stripped, and empty or numerically
unparseable tokens are dropped. -/
def survivingAlleles (value : String) : List ℚ :=
  (splitOnComma (pyStrip value.toList)).filterMap (fun tok =>
    let a := pyStrip tok
    if a = [] then none else parseDecimal a)

/-- The tally contributed by a single locus. -/
def locusTally (qa : String → Option (List ℚ)) (fields : String → Option String)
    (locus : String) : Tally :=
  let e := evaluate_locus (qa locus) (parse_alleles (fields locus))
  ⟨e.1, e.2.1, e.2.2.1, e.2.2.2⟩

/-- Componentwise sum of tallies. -/
def Tally.add (a b : Tally) : Tally :=
  ⟨a.consistent + b.consistent, a.mutated + b.mutated,
   a.inconclusive + b.inconclusive, a.penalty + b.penalty⟩

/-- Example query of spec §8: `{PersonID: "Q1", L1: "9,10", L2: "-"}`. -/
def exQuery : Row :=
  ⟨some "Q1", fun l => if l = "L1" then some "9,10" else if l = "L2" then some "-" else none⟩

/-- Example candidate of spec §8: `{PersonID: "A", L1: "10,11", L2: "5"}`. -/
def exRowA : Row :=
  ⟨some "A", fun l => if l = "L1" then some "10,11" else if l = "L2" then some "5" else none⟩

/-- A one-candidate database over schema loci `L1`, `L2`. -/
def exDB1 : Database := ⟨["L1", "L2"], [exRowA]⟩

/-- The single result record produced for `exQuery` against `exDB1`. -/
def exResA : MatchResult := scoreRow (queryAlleles exQuery) exDB1.loci "A" exRowA

/-- Query allele map used in the score-monotonicity analysis: allele 9 at both
`L1` and `L2`. -/
def exQa : String → Option (List ℚ) :=
  fun l => if l = "L1" then some [9] else if l = "L2" then some [9] else none

/-- Candidate row used in the score-monotonicity analysis: allele 12 at `L1`
(a hard mismatch against 9) and allele 9 at `L2` (consistent). -/
def exRowC : Row :=
  ⟨some "P", fun l => if l = "L1" then some "12" else if l = "L2" then some "9" else none⟩

/-- The raw (pre-clamp) score of one comparison (source line 116, before
`max` and epsilon). -/
def rawScore (qa : String → Option (List ℚ)) (fields : String → Option String)
    (loci : List String) : ℚ :=
  ((tallyLoci qa fields loci).consistent : ℚ) * 2 + ((tallyLoci qa fields loci).mutated : ℚ)
    - (tallyLoci qa fields loci).penalty

/-- The query of spec §8 extended with a locus `L9` that is not in `exDB1`'s
schema. -/
def exQueryJunk : Row :=
  ⟨some "Q1", fun l => if l = "L1" then some "9,10" else if l = "L2" then some "-"
    else if l = "L9" then some "7" else none⟩

theorem Tally.add_mk_zero (t : Tally) : t.add ⟨0, 0, 0, 0⟩ = t := by
  cases t; simp [Tally.add]

theorem Tally.zero_add_mk (t : Tally) : (Tally.mk 0 0 0 0).add t = t := by
  cases t; simp [Tally.add]

theorem Tally.addAssoc (a b c : Tally) : (a.add b).add c = a.add (b.add c) := by
  cases a; cases b; cases c
  simp only [Tally.add, Tally.mk.injEq]
  exact ⟨Nat.add_assoc _ _ _, Nat.add_assoc _ _ _, Nat.add_assoc _ _ _, add_assoc _ _ _⟩

theorem stepTally_eq_add (qa : String → Option (List ℚ)) (f : String → Option String)
    (t : Tally) (locus : String) :
    stepTally qa f t locus = t.add (locusTally qa f locus) := rfl

theorem foldl_stepTally (qa : String → Option (List ℚ)) (f : String → Option String) :
    ∀ (loci : List String) (t : Tally),
      List.foldl (stepTally qa f) t loci = t.add (tallyLoci qa f loci)
  | [], t => (Tally.add_mk_zero t).symm
  | locus :: rest, t => by
    rw [tallyLoci, List.foldl_cons, List.foldl_cons, foldl_stepTally qa f rest,
      foldl_stepTally qa f rest, stepTally_eq_add, stepTally_eq_add, Tally.addAssoc,
      Tally.zero_add_mk]

theorem tallyLoci_append (qa : String → Option (List ℚ)) (f : String → Option String)
    (l₁ l₂ : List String) :
    tallyLoci qa f (l₁ ++ l₂) = (tallyLoci qa f l₁).add (tallyLoci qa f l₂) := by
  rw [tallyLoci, List.foldl_append, ← tallyLoci, foldl_stepTally]

theorem tallyLoci_cons (qa : String → Option (List ℚ)) (f : String → Option String)
    (locus : String) (rest : List String) :
    tallyLoci qa f (locus :: rest) = (locusTally qa f locus).add (tallyLoci qa f rest) := by
  rw [tallyLoci, List.foldl_cons, foldl_stepTally, stepTally_eq_add, Tally.zero_add_mk]

theorem evaluate_locus_cases (q c : Option (List ℚ)) :
    evaluate_locus q c = (0, 0, 1, 0) ∨ evaluate_locus q c = (1, 0, 0, 0) ∨
    evaluate_locus q c = (0, 1, 0, 1/2) ∨ evaluate_locus q c = (0, 0, 0, 1) := by
  match q, c with
  | none, none => left; rfl
  | none, some cs => left; rfl
  | some qs, none => left; rfl
  | some qs, some cs =>
    rw [evaluate_locus]
    split
    · right; left; rfl
    · split
      · right; right; left; rfl
      · right; right; right; rfl

theorem any_mem_iff (qs cs : List ℚ) :
    (qs.any (fun a => cs.any (fun b => decide (a = b))) = true) ↔ ∃ a ∈ qs, a ∈ cs := by
  simp [List.any_eq_true]

theorem any_mutated_iff (qs cs : List ℚ) :
    (qs.any (fun a => cs.any (fun b => decide (|a - b| = 1))) = true) ↔
      ∃ a ∈ qs, ∃ b ∈ cs, |a - b| = 1 := by
  simp [List.any_eq_true]

/-- Claim C1: the Locus Evaluator classifies in order: absent on either side is
Inconclusive with penalty 0; else a shared allele value is Consistent with
penalty 0; else a cross pair at exact distance 1 is Mutated with penalty 0.5;
else Mismatch with penalty 1.  The shared-allele check takes precedence over
the mutation check. -/
theorem locusEvaluatorClassification (q c : Option (List ℚ)) :
    ((q = none ∨ c = none) → evaluate_locus q c = (0, 0, 1, 0)) ∧
    (∀ qs cs, q = some qs → c = some cs →
      (((∃ a ∈ qs, a ∈ cs) → evaluate_locus q c = (1, 0, 0, 0)) ∧
       ((¬ ∃ a ∈ qs, a ∈ cs) → (∃ a ∈ qs, ∃ b ∈ cs, |a - b| = 1) →
          evaluate_locus q c = (0, 1, 0, 1/2)) ∧
       ((¬ ∃ a ∈ qs, a ∈ cs) → (¬ ∃ a ∈ qs, ∃ b ∈ cs, |a - b| = 1) →
          evaluate_locus q c = (0, 0, 0, 1)))) := by
  constructor
  · rintro (rfl | rfl)
    · cases c <;> rfl
    · cases q <;> rfl
  · rintro qs cs rfl rfl
    refine ⟨fun hsh => ?_, fun hsh hmut => ?_, fun hsh hmut => ?_⟩
    · rw [evaluate_locus, if_pos ((any_mem_iff qs cs).mpr hsh)]
    · rw [evaluate_locus, if_neg (fun h => hsh ((any_mem_iff qs cs).mp h)),
        if_pos ((any_mutated_iff qs cs).mpr hmut)]
    · rw [evaluate_locus, if_neg (fun h => hsh ((any_mem_iff qs cs).mp h)),
        if_neg (fun h => hmut ((any_mutated_iff qs cs).mp h))]

/-- Witness for C1: query alleles {9} against candidate alleles {10} share no
value but differ by exactly 1, so the verdict is Mutated with penalty 0.5. -/
theorem locusEvaluatorClassificationWitness :
    evaluate_locus (some [9]) (some [10]) = (0, 1, 0, 1/2) :=
  ((locusEvaluatorClassification (some [9]) (some [10])).2 [9] [10] rfl rfl).2.1
    (by norm_num) ⟨9, by norm_num, 10, by norm_num, by norm_num⟩

/-- Claim C2: for every comparison the Profile Scorer returns
`score = max(2*consistent_loci + mutated_loci - total_penalty, 0) + 1e-6` and
`posterior = score / (score + 1)`, with the counts and total penalty
accumulated over all schema loci. -/
theorem profileScorerFormula (qa : String → Option (List ℚ)) (loci : List String)
    (pid : String) (row : Row) :
    (scoreRow qa loci pid row).clr =
      max (2 * ((tallyLoci qa row.fields loci).consistent : ℚ)
            + ((tallyLoci qa row.fields loci).mutated : ℚ)
            - (tallyLoci qa row.fields loci).penalty) 0 + 1/1000000 ∧
    (scoreRow qa loci pid row).posterior =
      (scoreRow qa loci pid row).clr / ((scoreRow qa loci pid row).clr + 1) := by
  constructor
  · rw [scoreRow, scoreEps]
    ring_nf
  · rfl

theorem parseFold_eq (toks : List (List Char)) :
    ∀ acc : List ℚ,
      toks.foldl (fun acc tok =>
        let a := pyStrip tok
        if a = [] then acc
        else
          match parseDecimal a with
          | some v => acc ++ [v]
          | none => acc) acc
      = acc ++ toks.filterMap (fun tok =>
          let a := pyStrip tok
          if a = [] then none else parseDecimal a) := by
  induction toks with
  | nil => simp
  | cons t ts ih =>
    intro acc
    simp only [List.foldl_cons, List.filterMap_cons]
    by_cases h : pyStrip t = []
    · simp [h, ih]
    · cases hp : parseDecimal (pyStrip t) with
      | none => simp [h, hp, ih]
      | some v => simp [h, hp, ih]

theorem parse_alleles_some_eq (s : String)
    (h1 : pyStrip s.toList ≠ []) (h2 : pyStrip s.toList ≠ ['-']) :
    parse_alleles (some s) =
      if survivingAlleles s = [] then none else some (survivingAlleles s) := by
  show (if pyStrip s.toList = [] ∨ pyStrip s.toList = ['-'] then none
    else
      let alleles := (splitOnComma (pyStrip s.toList)).foldl (fun acc tok =>
        let a := pyStrip tok
        if a = [] then acc
        else
          match parseDecimal a with
          | some v => acc ++ [v]
          | none => acc) []
      if alleles = [] then none else some alleles) = _
  rw [if_neg (by exact fun h => h.elim h1 h2)]
  simp only [parseFold_eq, List.nil_append]
  rfl

/-- Claim C4: the Allele Parser returns absent for a missing-data marker, a
stripped-empty string and the literal placeholder `"-"`; otherwise it splits
on commas, strips tokens, silently drops tokens that fail numeric parse
(including empty tokens), returns absent when zero tokens survive, and
otherwise returns the surviving numeric values, whose set (comparison is
set-membership) is exactly the set of surviving token values. -/
theorem alleleParserBehaviour :
    parse_alleles none = none ∧
    (∀ s : String, pyStrip s.toList = [] → parse_alleles (some s) = none) ∧
    (∀ s : String, pyStrip s.toList = ['-'] → parse_alleles (some s) = none) ∧
    (∀ s : String, pyStrip s.toList ≠ [] → pyStrip s.toList ≠ ['-'] →
      parse_alleles (some s) =
        if survivingAlleles s = [] then none else some (survivingAlleles s)) ∧
    (∀ (s : String) (qs : List ℚ), parse_alleles (some s) = some qs →
      ∀ a : ℚ, a ∈ qs ↔ a ∈ survivingAlleles s) := by
  refine ⟨rfl, fun s h => ?_, fun s h => ?_, fun s h1 h2 => parse_alleles_some_eq s h1 h2,
    fun s qs hqs a => ?_⟩
  · show (if pyStrip s.toList = [] ∨ pyStrip s.toList = ['-'] then none else _) = none
    rw [if_pos (Or.inl h)]
  · show (if pyStrip s.toList = [] ∨ pyStrip s.toList = ['-'] then none else _) = none
    rw [if_pos (Or.inr h)]
  · by_cases h1 : pyStrip s.toList = []
    · have : parse_alleles (some s) = none := by
        show (if pyStrip s.toList = [] ∨ pyStrip s.toList = ['-'] then none else _) = none
        rw [if_pos (Or.inl h1)]
      rw [this] at hqs; exact absurd hqs (by simp)
    · by_cases h2 : pyStrip s.toList = ['-']
      · have : parse_alleles (some s) = none := by
          show (if pyStrip s.toList = [] ∨ pyStrip s.toList = ['-'] then none else _) = none
          rw [if_pos (Or.inr h2)]
        rw [this] at hqs; exact absurd hqs (by simp)
      · rw [parse_alleles_some_eq s h1 h2] at hqs
        by_cases h3 : survivingAlleles s = []
        · rw [if_pos h3] at hqs; exact absurd hqs (by simp)
        · rw [if_neg h3] at hqs
          rw [Option.some_inj] at hqs
          rw [hqs]

/-- Witness for C4: the cell `"9,,9.3"` parses to the alleles 9 and 9.3, the
embedded empty token being dropped silently. -/
theorem alleleParserBehaviourWitness :
    parse_alleles (some "9,,9.3") = some [9, 93/10] := by
  have h := alleleParserBehaviour.2.2.2.1 "9,,9.3" (by decide) (by decide)
  rw [h]
  have hs : survivingAlleles "9,,9.3" = [9, 93/10] := by
    simp [survivingAlleles, splitOnComma, pyStrip, parseDecimal, parseUnsigned, digitsVal]
    norm_num
  rw [hs]
  simp

theorem scanRows_ok_iff (qa : String → Option (List ℚ)) (loci : List String)
    (qid : String) (rows : List Row) :
    (∃ l, scanRows qa loci qid rows = .ok l) ↔ ∀ row ∈ rows, row.personId ≠ none := by
  induction rows with
  | nil => simp [scanRows]
  | cons row rest ih =>
    obtain ⟨op, f⟩ := row
    cases op with
    | none => simp [scanRows]
    | some pid =>
      by_cases hp : pid = qid
      · simp [scanRows, hp, ih]
      · cases hrec : scanRows qa loci qid rest with
        | error e =>
          rw [hrec] at ih
          simp at ih
          simp [scanRows, hp, hrec, ih]
        | ok l' =>
          rw [hrec] at ih
          simp at ih
          simp only [scanRows, hrec]
          simp [hp]
          exact ih

theorem scanRows_mem (qa : String → Option (List ℚ)) (loci : List String)
    (qid : String) (rows : List Row) (l : List MatchResult)
    (hl : scanRows qa loci qid rows = .ok l) :
    ∀ r ∈ l, ∃ row ∈ rows, ∃ pid, row.personId = some pid ∧ pid ≠ qid ∧
      r = scoreRow qa loci pid row := by
  induction rows generalizing l with
  | nil =>
    rw [scanRows] at hl
    cases hl
    simp
  | cons row rest ih =>
    obtain ⟨op, f⟩ := row
    cases op with
    | none => simp [scanRows] at hl
    | some pid =>
      simp only [scanRows] at hl
      by_cases hp : pid = qid
      · rw [if_pos hp] at hl
        intro r hr
        obtain ⟨row', hrow', pid', h1, h2, h3⟩ := ih l hl r hr
        exact ⟨row', by simp [hrow'], pid', h1, h2, h3⟩
      · rw [if_neg hp] at hl
        cases hrec : scanRows qa loci qid rest with
        | error e => rw [hrec] at hl; exact absurd hl (by simp)
        | ok l' =>
          rw [hrec] at hl
          cases hl
          intro r hr
          rcases List.mem_cons.mp hr with rfl | hr'
          · exact ⟨⟨some pid, f⟩, by simp, pid, rfl, hp, rfl⟩
          · obtain ⟨row', hrow', pid', h1, h2, h3⟩ := ih l' hrec r hr'
            exact ⟨row', by simp [hrow'], pid', h1, h2, h3⟩

theorem match_single_ok_shape (query : Row) (db : Database) (qid : String)
    (out : List MatchResult) (hq : query.personId = some qid)
    (hout : match_single query db = .ok out) :
    ∃ scanned, scanRows (queryAlleles query) db.loci qid db.rows = .ok scanned ∧
      out = (scanned.mergeSort leClr).take 10 := by
  simp only [match_single, hq] at hout
  cases hscan : scanRows (fun locus => parse_alleles (query.fields locus)) db.loci qid db.rows with
  | error e => rw [hscan] at hout; exact absurd hout (by simp)
  | ok c =>
    rw [hscan] at hout
    simp only [Except.ok.injEq] at hout
    exact ⟨c, hscan, hout.symm⟩

/-- Claim C5: a query with no identifier, or a candidate record with no
identifier, makes the core signal a SchemaError to the caller (the error is
returned as a value, so only the current call aborts); with identifiers
present the core never raises, whatever the per-locus field contents are. -/
theorem schemaErrorHandling (query : Row) (db : Database) :
    (query.personId = none →
      match_single query db =
        .error "SchemaError: query profile is missing the PersonID field") ∧
    (∀ qid, query.personId = some qid →
      (((∃ row ∈ db.rows, row.personId = none) → ∃ e, match_single query db = .error e) ∧
       ((∀ row ∈ db.rows, row.personId ≠ none) → ∃ l, match_single query db = .ok l))) := by
  refine ⟨fun h => by simp [match_single, h], fun qid hq => ⟨fun ⟨row, hrow, hnone⟩ => ?_, fun hall => ?_⟩⟩
  · cases hscan : scanRows (fun locus => parse_alleles (query.fields locus)) db.loci qid db.rows with
    | error e => exact ⟨e, by simp [match_single, hq, hscan]⟩
    | ok c =>
      have := (scanRows_ok_iff (fun locus => parse_alleles (query.fields locus))
        db.loci qid db.rows).mp ⟨c, hscan⟩ row hrow
      exact absurd hnone this
  · obtain ⟨l, hl⟩ := (scanRows_ok_iff (fun locus => parse_alleles (query.fields locus))
      db.loci qid db.rows).mpr hall
    exact ⟨(l.mergeSort leClr).take 10, by simp [match_single, hq, hl]⟩

/-- Witness for C5: a query record without the identifier field yields the
SchemaError value, and a well-formed query over a well-formed (empty) database
yields a result list. -/
theorem schemaErrorHandlingWitness :
    match_single ⟨none, fun _ => none⟩ ⟨[], []⟩ =
      .error "SchemaError: query profile is missing the PersonID field" ∧
    ∃ l, match_single exQuery (Database.mk ["L1"] []) = .ok l :=
  ⟨(schemaErrorHandling ⟨none, fun _ => none⟩ ⟨[], []⟩).1 rfl,
   ((schemaErrorHandling exQuery (Database.mk ["L1"] [])).2 "Q1" rfl).2 (by simp)⟩

/-- Claim C7: no result in a query's output list carries the query's own
identifier. -/
theorem selfExclusion (query : Row) (db : Database) (qid : String)
    (out : List MatchResult) (hq : query.personId = some qid)
    (hout : match_single query db = .ok out) :
    ∀ r ∈ out, r.person_id ≠ qid := by
  obtain ⟨scanned, hscan, rfl⟩ := match_single_ok_shape query db qid out hq hout
  intro r hr
  have hr' : r ∈ scanned :=
    List.mem_mergeSort.mp ((List.take_sublist _ _).mem hr)
  obtain ⟨row, hrow, pid, h1, h2, h3⟩ := scanRows_mem _ _ _ _ _ hscan r hr'
  rw [h3]
  simpa [scoreRow] using h2

theorem match_single_exDB1 : match_single exQuery exDB1 = .ok [exResA] := by
  simp [match_single, exQuery, exDB1, exRowA, scanRows, exResA, queryAlleles]
  rfl

/-- Witness for C7: against a database containing the single candidate `A`,
the returned record's identifier differs from the query identifier `Q1`. -/
theorem selfExclusionWitness : exResA.person_id ≠ "Q1" :=
  selfExclusion exQuery exDB1 "Q1" [exResA] rfl match_single_exDB1 exResA (by simp)

theorem leClr_trans : ∀ a b c : MatchResult, leClr a b → leClr b c → leClr a c := by
  intro a b c hab hbc
  simp only [leClr, decide_eq_true_eq] at *
  exact le_trans hbc hab

theorem leClr_total : ∀ a b : MatchResult, leClr a b || leClr b a := by
  intro a b
  simp only [leClr, Bool.or_eq_true, decide_eq_true_eq]
  exact le_total b.clr a.clr

theorem mergeSort_filter_fixed (scanned : List MatchResult) (x : ℚ) :
    (scanned.mergeSort leClr).filter (fun r => decide (r.clr = x)) =
      scanned.filter (fun r => decide (r.clr = x)) := by
  have hpw : (scanned.filter (fun r => decide (r.clr = x))).Pairwise
      (fun a b => leClr a b = true) := by
    refine List.pairwise_of_forall_mem_list ?_
    intro a ha b hb
    have ha' := (List.mem_filter.mp ha).2
    have hb' := (List.mem_filter.mp hb).2
    simp only [decide_eq_true_eq] at ha' hb'
    simp [leClr, ha', hb']
  have hsub : List.Sublist (scanned.filter (fun r => decide (r.clr = x)))
      (scanned.mergeSort leClr) :=
    List.sublist_mergeSort leClr_trans leClr_total hpw (List.filter_sublist scanned)
  have hsub' : List.Sublist (scanned.filter (fun r => decide (r.clr = x)))
      ((scanned.mergeSort leClr).filter (fun r => decide (r.clr = x))) := by
    have := hsub.filter (fun r => decide (r.clr = x))
    rwa [List.filter_filter, show ∀ l : List MatchResult,
      (l.filter fun r => decide (r.clr = x) && decide (r.clr = x)) =
        l.filter (fun r => decide (r.clr = x)) from fun l => by
          simp [Bool.and_self]] at this
  have hlen : ((scanned.mergeSort leClr).filter (fun r => decide (r.clr = x))).length =
      (scanned.filter (fun r => decide (r.clr = x))).length :=
    ((List.mergeSort_perm scanned leClr).filter _).length_eq
  exact (hsub'.eq_of_length hlen.symm).symm

/-- Claim C3: the Match Ranker returns at most 10 results, sorted by `clr`
descending; when at most 10 non-self candidates exist it returns all of them
(an empty candidate list yields an empty result, not an error); and ties on
equal `clr` keep the original scan order: for every `clr` value, the results
carrying that value are an initial segment, in order, of the scanned results
carrying that value. -/
theorem matchRankerTopK (query : Row) (db : Database) (qid : String)
    (scanned out : List MatchResult)
    (hq : query.personId = some qid)
    (hscan : scanRows (queryAlleles query) db.loci qid db.rows = .ok scanned)
    (hout : match_single query db = .ok out) :
    out.length ≤ 10 ∧
    out.Pairwise (fun a b => b.clr ≤ a.clr) ∧
    (scanned.length ≤ 10 → out.Perm scanned) ∧
    (scanned = [] → out = []) ∧
    (∀ x : ℚ, ∃ rest, scanned.filter (fun r => decide (r.clr = x)) =
      out.filter (fun r => decide (r.clr = x)) ++ rest) := by
  obtain ⟨scanned', hscan', rfl⟩ := match_single_ok_shape query db qid out hq hout
  rw [hscan'] at hscan
  obtain rfl : scanned = scanned' := by
    simpa using hscan.symm
  refine ⟨?_, ?_, ?_, ?_, ?_⟩
  · exact List.length_take_le 10 (scanned.mergeSort leClr)
  · have hs : (scanned.mergeSort leClr).Pairwise (fun a b => leClr a b = true) :=
      List.sorted_mergeSort leClr_trans leClr_total scanned
    have := hs.sublist (List.take_sublist 10 _)
    exact this.imp (fun h => by simpa [leClr] using h)
  · intro hlen
    have h10 : (scanned.mergeSort leClr).length ≤ 10 := by
      simpa using hlen
    rw [List.take_of_length_le h10]
    exact List.mergeSort_perm scanned leClr
  · rintro rfl
    simp
  · intro x
    refine ⟨((scanned.mergeSort leClr).drop 10).filter (fun r => decide (r.clr = x)), ?_⟩
    rw [← mergeSort_filter_fixed scanned x, ← List.filter_append,
      List.take_append_drop]

theorem scanRows_exDB1 :
    scanRows (queryAlleles exQuery) exDB1.loci "Q1" exDB1.rows = .ok [exResA] := rfl

/-- Witness for C3: against a one-candidate database the ranker returns that
single scored record, sorted, complete, and stably ordered. -/
theorem matchRankerTopKWitness :
    ([exResA] : List MatchResult).length ≤ 10 ∧
    List.Pairwise (fun a b : MatchResult => b.clr ≤ a.clr) [exResA] ∧
    (([exResA] : List MatchResult).length ≤ 10 → List.Perm [exResA] [exResA]) ∧
    (([exResA] : List MatchResult) = [] → ([exResA] : List MatchResult) = []) ∧
    (∀ x : ℚ, ∃ rest, [exResA].filter (fun r => decide (r.clr = x)) =
      [exResA].filter (fun r => decide (r.clr = x)) ++ rest) :=
  matchRankerTopK exQuery exDB1 "Q1" [exResA] [exResA] rfl scanRows_exDB1 match_single_exDB1

theorem scoreRow_clr (qa : String → Option (List ℚ)) (loci : List String)
    (pid : String) (row : Row) :
    (scoreRow qa loci pid row).clr = max (rawScore qa row.fields loci) 0 + scoreEps := by
  rw [scoreRow, rawScore]

theorem scoreRow_posterior (qa : String → Option (List ℚ)) (loci : List String)
    (pid : String) (row : Row) :
    (scoreRow qa loci pid row).posterior =
      (scoreRow qa loci pid row).clr / ((scoreRow qa loci pid row).clr + 1) := rfl

/-- Claim C9: every returned result has `clr ≥ 1e-6` (strictly positive), a
posterior strictly between 0 and 1, and the posterior's denominator is never
zero. -/
theorem outputNumericBounds (query : Row) (db : Database)
    (out : List MatchResult) (hout : match_single query db = .ok out) :
    ∀ r ∈ out, 1/1000000 ≤ r.clr ∧ 0 < r.posterior ∧ r.posterior < 1 ∧ r.clr + 1 ≠ 0 := by
  intro r hr
  cases hq : query.personId with
  | none => simp [match_single, hq] at hout
  | some qid =>
    obtain ⟨scanned, hscan, rfl⟩ := match_single_ok_shape query db qid out hq hout
    have hr' : r ∈ scanned :=
      List.mem_mergeSort.mp ((List.take_sublist _ _).mem hr)
    obtain ⟨row, hrow, pid, h1, h2, h3⟩ := scanRows_mem _ _ _ _ _ hscan r hr'
    have hclr : 1/1000000 ≤ r.clr := by
      rw [h3, scoreRow_clr]
      have := le_max_right (rawScore (queryAlleles query) row.fields db.loci) 0
      rw [scoreEps]
      linarith
    have hpos : 0 < r.clr := lt_of_lt_of_le (by norm_num) hclr
    have hpost : r.posterior = r.clr / (r.clr + 1) := by
      rw [h3, scoreRow_posterior]
    refine ⟨hclr, ?_, ?_, by linarith⟩
    · rw [hpost]
      exact div_pos hpos (by linarith)
    · rw [hpost]
      rw [div_lt_one (by linarith)]
      linarith

/-- Witness for C9: the single result of the §8 one-candidate example obeys
all numeric bounds. -/
theorem outputNumericBoundsWitness :
    1/1000000 ≤ exResA.clr ∧ 0 < exResA.posterior ∧ exResA.posterior < 1 ∧
      exResA.clr + 1 ≠ 0 :=
  outputNumericBounds exQuery exDB1 [exResA] match_single_exDB1 exResA (by simp)

theorem tally_sum (qa : String → Option (List ℚ)) (f : String → Option String)
    (loci : List String) :
    (tallyLoci qa f loci).consistent + (tallyLoci qa f loci).mutated +
      (tallyLoci qa f loci).inconclusive + mismatchCount qa f loci = loci.length := by
  induction loci with
  | nil => rfl
  | cons locus rest ih =>
    rw [tallyLoci_cons]
    rcases evaluate_locus_cases (qa locus) (parse_alleles (f locus)) with h | h | h | h <;>
      simp [locusTally, h, mismatchCount, List.countP_cons, Tally.add] at ih ⊢ <;>
      omega

/-- Claim C10: for every comparison the returned counts are non-negative and
their sum plus the number of hard-mismatch loci equals the number of schema
loci evaluated. -/
theorem countInvariant (qa : String → Option (List ℚ)) (loci : List String)
    (pid : String) (row : Row) :
    0 ≤ (scoreRow qa loci pid row).consistent_loci ∧
    0 ≤ (scoreRow qa loci pid row).mutated_loci ∧
    0 ≤ (scoreRow qa loci pid row).inconclusive_loci ∧
    (scoreRow qa loci pid row).consistent_loci + (scoreRow qa loci pid row).mutated_loci +
      (scoreRow qa loci pid row).inconclusive_loci + mismatchCount qa row.fields loci
      = loci.length :=
  ⟨Nat.zero_le _, Nat.zero_le _, Nat.zero_le _, tally_sum qa row.fields loci⟩

theorem evaluate_locus_none_left (c : Option (List ℚ)) :
    evaluate_locus none c = (0, 0, 1, 0) := by
  cases c <;> rfl

theorem tallyLoci_congr (qa1 qa2 : String → Option (List ℚ)) (f : String → Option String)
    (loci : List String) (h : ∀ l ∈ loci, qa1 l = qa2 l) :
    tallyLoci qa1 f loci = tallyLoci qa2 f loci := by
  induction loci with
  | nil => rfl
  | cons locus rest ih =>
    rw [tallyLoci_cons, tallyLoci_cons, ih (fun l hl => h l (List.mem_cons_of_mem _ hl))]
    congr 1
    rw [locusTally, locusTally, h locus (List.mem_cons_self _ _)]

theorem scoreRow_congr (qa1 qa2 : String → Option (List ℚ)) (loci : List String)
    (pid : String) (row : Row) (h : ∀ l ∈ loci, qa1 l = qa2 l) :
    scoreRow qa1 loci pid row = scoreRow qa2 loci pid row := by
  rw [scoreRow, scoreRow, tallyLoci_congr qa1 qa2 row.fields loci h]

theorem scanRows_congr (qa1 qa2 : String → Option (List ℚ)) (loci : List String)
    (qid : String) (rows : List Row) (h : ∀ l ∈ loci, qa1 l = qa2 l) :
    scanRows qa1 loci qid rows = scanRows qa2 loci qid rows := by
  induction rows with
  | nil => rfl
  | cons row rest ih =>
    obtain ⟨op, f⟩ := row
    cases op with
    | none => rfl
    | some pid =>
      simp only [scanRows, ih, scoreRow_congr qa1 qa2 loci pid ⟨some pid, f⟩ h]

/-- Claim C8: the Profile Scorer iterates every schema locus: a schema locus
absent from the query's mapping contributes one Inconclusive count and nothing
else, and loci present in the query but outside the database schema have no
effect on the result of `match_single`. -/
theorem schemaLociIteration :
    (∀ (qa : String → Option (List ℚ)) (f : String → Option String)
       (loci : List String) (locus : String), qa locus = none →
       tallyLoci qa f (loci ++ [locus]) =
         ⟨(tallyLoci qa f loci).consistent, (tallyLoci qa f loci).mutated,
          (tallyLoci qa f loci).inconclusive + 1, (tallyLoci qa f loci).penalty⟩) ∧
    (∀ (q1 q2 : Row) (db : Database), q1.personId = q2.personId →
       (∀ locus ∈ db.loci, q1.fields locus = q2.fields locus) →
       match_single q1 db = match_single q2 db) := by
  constructor
  · intro qa f loci locus h
    rw [tallyLoci_append, tallyLoci_cons, show tallyLoci qa f [] = ⟨0, 0, 0, 0⟩ from rfl,
      Tally.add_mk_zero, locusTally, h, evaluate_locus_none_left]
    simp [Tally.add]
  · intro q1 q2 db hpe hf
    cases hq : q1.personId with
    | none =>
      have hq2 : q2.personId = none := hpe.symm.trans hq
      simp [match_single, hq, hq2]
    | some qid =>
      have hq2 : q2.personId = some qid := hpe.symm.trans hq
      have hsc : scanRows (fun locus => parse_alleles (q1.fields locus)) db.loci qid db.rows =
          scanRows (fun locus => parse_alleles (q2.fields locus)) db.loci qid db.rows :=
        scanRows_congr _ _ db.loci qid db.rows (fun l hl => by rw [hf l hl])
      simp only [match_single, hq, hq2, hsc]

/-- Witness for C8: extending the §8 query with a locus `L9` outside the
database schema leaves the ranking result unchanged. -/
theorem schemaLociIterationWitness :
    match_single exQueryJunk exDB1 = match_single exQuery exDB1 :=
  schemaLociIteration.2 exQueryJunk exQuery exDB1 rfl (by decide)

theorem tallyLoci_snoc (qa : String → Option (List ℚ)) (f : String → Option String)
    (loci : List String) (locus : String) :
    tallyLoci qa f (loci ++ [locus]) = (tallyLoci qa f loci).add (locusTally qa f locus) := by
  rw [tallyLoci_append, tallyLoci_cons, show tallyLoci qa f [] = ⟨0, 0, 0, 0⟩ from rfl,
    Tally.add_mk_zero]

/-- Counterexample for C6 as stated: with one hard-mismatch locus `L1` already
tallied (raw score −1, clamped to the epsilon floor), appending the Consistent
locus `L2` raises the score from 1e-6 to 1 + 1e-6, an increase of 1, not the
claimed 2. -/
theorem scoreMonotonicityCounterexample :
    evaluate_locus (exQa "L2") (parse_alleles (exRowC.fields "L2")) = (1, 0, 0, 0) ∧
    (scoreRow exQa ["L1", "L2"] "P" exRowC).clr = 1 + 1/1000000 ∧
    (scoreRow exQa ["L1"] "P" exRowC).clr = 1/1000000 ∧
    (1 : ℚ) + 1/1000000 ≠ 1/1000000 + 2 := by
  refine ⟨?_, ?_, ?_, by norm_num⟩
  · simp [exQa, exRowC, parse_alleles, pyStrip, splitOnComma, parseDecimal, parseUnsigned,
      digitsVal, evaluate_locus]
  · simp [scoreRow, tallyLoci, stepTally, exQa, exRowC, parse_alleles, pyStrip, splitOnComma,
      parseDecimal, parseUnsigned, digitsVal, evaluate_locus, scoreEps]
    norm_num
  · simp [scoreRow, tallyLoci, stepTally, exQa, exRowC, parse_alleles, pyStrip, splitOnComma,
      parseDecimal, parseUnsigned, digitsVal, evaluate_locus, scoreEps]
    norm_num

/-- Claim C6 amended: appending a Consistent locus raises the score by exactly
2 and appending a Mutated locus by exactly 0.5 whenever the raw score
`2*consistent + mutated − total_penalty` was already non-negative; appending a
Mismatch locus lowers the score by exactly 1 when the raw score was at least
1, and otherwise the new score is clamped at the epsilon floor. -/
theorem scoreMonotonicityAmendedMono (qa : String → Option (List ℚ)) (loci : List String)
    (pid : String) (row : Row) (locus : String) :
    (evaluate_locus (qa locus) (parse_alleles (row.fields locus)) = (1, 0, 0, 0) →
      0 ≤ rawScore qa row.fields loci →
      (scoreRow qa (loci ++ [locus]) pid row).clr = (scoreRow qa loci pid row).clr + 2) ∧
    (evaluate_locus (qa locus) (parse_alleles (row.fields locus)) = (0, 1, 0, 1/2) →
      0 ≤ rawScore qa row.fields loci →
      (scoreRow qa (loci ++ [locus]) pid row).clr = (scoreRow qa loci pid row).clr + 1/2) ∧
    (evaluate_locus (qa locus) (parse_alleles (row.fields locus)) = (0, 0, 0, 1) →
      ((1 ≤ rawScore qa row.fields loci →
        (scoreRow qa (loci ++ [locus]) pid row).clr = (scoreRow qa loci pid row).clr - 1) ∧
       (rawScore qa row.fields loci < 1 →
        (scoreRow qa (loci ++ [locus]) pid row).clr = scoreEps))) := by
  have hsnoc := tallyLoci_snoc qa row.fields loci locus
  refine ⟨fun h h0 => ?_, fun h h0 => ?_, fun h => ⟨fun h1 => ?_, fun h1 => ?_⟩⟩
  · have hraw : rawScore qa row.fields (loci ++ [locus]) = rawScore qa row.fields loci + 2 := by
      rw [rawScore, rawScore, hsnoc, locusTally, h]
      simp [Tally.add]
      ring
    rw [scoreRow_clr, scoreRow_clr, hraw, max_eq_left (by linarith), max_eq_left h0]
    ring
  · have hraw : rawScore qa row.fields (loci ++ [locus]) =
        rawScore qa row.fields loci + 1/2 := by
      rw [rawScore, rawScore, hsnoc, locusTally, h]
      simp [Tally.add]
      ring
    rw [scoreRow_clr, scoreRow_clr, hraw, max_eq_left (by linarith), max_eq_left h0]
    ring
  · have hraw : rawScore qa row.fields (loci ++ [locus]) =
        rawScore qa row.fields loci - 1 := by
      rw [rawScore, rawScore, hsnoc, locusTally, h]
      simp [Tally.add]
      ring
    rw [scoreRow_clr, scoreRow_clr, hraw, max_eq_left (by linarith),
      max_eq_left (by linarith)]
    ring
  · have hraw : rawScore qa row.fields (loci ++ [locus]) =
        rawScore qa row.fields loci - 1 := by
      rw [rawScore, rawScore, hsnoc, locusTally, h]
      simp [Tally.add]
      ring
    rw [scoreRow_clr, hraw, max_eq_right (by linarith)]
    ring

/-- Witness for the amended C6: starting from an empty locus list (raw score
0) and appending the Consistent locus `L2`, the score rises by exactly 2. -/
theorem scoreMonotonicityAmendedMonoWitness :
    (scoreRow exQa ([] ++ ["L2"]) "P" exRowC).clr = (scoreRow exQa [] "P" exRowC).clr + 2 :=
  (scoreMonotonicityAmendedMono exQa [] "P" exRowC "L2").1
    (by simp [exQa, exRowC, parse_alleles, pyStrip, splitOnComma, parseDecimal,
      parseUnsigned, digitsVal, evaluate_locus])
    (by norm_num [rawScore, tallyLoci])
